import Mathlib

/-!
Verification of the firefly pin-ordered event aggregator and private batch
dispatch pipeline, shallowly embedded from the Go sources
(internal/events/aggregator.go and the privatemessaging package).

Go machine integers (int64 sequences and indexes) are modelled as Int;
hashes (fftypes.Bytes32) are modelled by an inductive type with a
constructor for SHA-256 of a topic string, so that distinct topics give
distinct contexts exactly as the code relies on. Database reads are
modelled as total functions supplied by an environment record: transient
database errors (which in Go bubble up to the poller for retry) are
abstracted away, so the only error the embedding tracks is the
definition-handler retry error that aggregator.go itself propagates.
-/

namespace Firefly

/-- UUIDs are modelled as natural numbers (only equality is used). -/
abbrev UUID := Nat

/-- fftypes.Bytes32: a 32-byte hash. `topicHash t` models sha256(t) as
computed in processMessage for unmasked contexts; `raw n` models any other
hash value. SHA-256 is collision-free for the inputs the code compares, so
an injective constructor is a faithful model of the equality tests. -/
inductive B32
| topicHash (topic : String)
| raw (n : Nat)
deriving DecidableEq, Repr

/-- fftypes.MessageType values used by the aggregator. -/
inductive MsgType
| definition
| broadcast
| privateMsg
| groupInit
| transferBroadcast
| transferPrivate
deriving DecidableEq, Repr

/-- fftypes.MessageState values. -/
inductive MsgState
| staged
| ready
| sent
| pending
| confirmed
| rejected
deriving DecidableEq, Repr

/-- fftypes.SystemTagIdentityClaim (string constant from fftypes, value
opaque to the aggregator which only compares it for equality). -/
def SystemTagIdentityClaim : String := "ff_identity_claim"

/-- fftypes.DeprecatedSystemTagDefineNode. -/
def DeprecatedSystemTagDefineNode : String := "ff_define_node"

/-- fftypes.DeprecatedSystemTagDefineOrganization. -/
def DeprecatedSystemTagDefineOrganization : String := "ff_define_organization"

/-- The fields of fftypes.MessageHeader read by the aggregator. -/
structure MsgHeader where
  id : UUID
  key : String
  author : String
  ns : String
  tag : String
  type : MsgType
  topics : List String
  group : Option B32
  cid : Option UUID
deriving DecidableEq, Repr

/-- The fields of fftypes.Message read by the aggregator: header, content
hash, masked pin strings, and the data reference list (whose length drives
the validation branch of attemptMessageDispatch). -/
structure Message where
  header : MsgHeader
  hash : B32
  pins : List String
  data : List UUID
deriving DecidableEq, Repr

/-- fftypes.BlobRef as referenced from a data item (d.Blob, with its
optional Hash). -/
structure BlobRef where
  hash : Option B32
deriving DecidableEq, Repr

/-- The fields of fftypes.Data read by resolveBlobs and transferBlobs. -/
structure DataItem where
  id : UUID
  ns : String
  blob : Option BlobRef
deriving DecidableEq, Repr

/-- A stored blob row (database.GetBlobMatchingHash result). -/
structure Blob where
  hash : B32
  payloadRef : String
deriving DecidableEq, Repr

/-- The field of fftypes.TokenTransfer read by attemptMessageDispatch. -/
structure TokenTransfer where
  messageHash : B32
deriving DecidableEq, Repr

/-- The fields of fftypes.Identity read by checkOnchainConsistency
(resolved author) and by sendData/transferBlobs (node identities). -/
structure Identity where
  id : UUID
  did : String
  parent : UUID
  profileId : String
deriving DecidableEq, Repr

/-- fftypes.Pin: one row of the pins collection. -/
structure Pin where
  sequence : Int
  batch : UUID
  batchHash : B32
  index : Int
  hash : B32
  masked : Bool
  signer : String
  dispatched : Bool
deriving DecidableEq, Repr

/-- fftypes.MessageManifestEntry: a message id plus its topic count. -/
structure MessageManifestEntry where
  id : UUID
  topics : Nat
deriving DecidableEq, Repr

/-- fftypes.DataManifestEntry. -/
structure DataManifestEntry where
  id : UUID
  hash : B32
deriving DecidableEq, Repr

/-- fftypes.BatchManifest (version-tagged). ManifestVersionUnset = 0,
ManifestVersion1 = 1. -/
structure BatchManifest where
  version : Int
  id : UUID
  tx : Option UUID
  messages : List MessageManifestEntry
  data : List DataManifestEntry
deriving DecidableEq, Repr

/-- fftypes.BatchPayload: the legacy full-payload form (tx ref plus the
full messages and data). -/
structure BatchPayload where
  tx : Option UUID
  messages : List Message
  data : List DataItem
deriving DecidableEq, Repr

/-- What the persisted batch's manifest column holds, as a JSON document:
either a serialized modern manifest, a legacy (v0.13.x and earlier) full
batch payload, or bytes that fail to parse either way. -/
inductive StoredManifest
| manifest (m : BatchManifest)
| legacyPayload (p : BatchPayload)
| corrupt
deriving DecidableEq, Repr

/-- The fields of fftypes.BatchPersisted read by the aggregator. -/
structure BatchPersisted where
  id : UUID
  hash : B32
  tx : Option UUID
  manifest : StoredManifest
deriving DecidableEq, Repr

/-- Go json.Unmarshal of the stored manifest column into a BatchManifest.
A modern manifest parses as itself; a legacy full payload parses with all
manifest fields at their zero values (JSON ignores unknown fields, so
Version comes out 0 = ManifestVersionUnset); corrupt bytes fail. -/
def unmarshalAsManifest : StoredManifest → Option BatchManifest
| StoredManifest.manifest m => some m
| StoredManifest.legacyPayload _ => some { version := 0, id := 0, tx := none, messages := [], data := [] }
| StoredManifest.corrupt => none

/-- Go json.Unmarshal of the stored manifest column into a BatchPayload.
A legacy payload parses as itself; a modern manifest document parses with
the payload message/data lists empty (its entry objects carry none of the
fftypes.Message / fftypes.Data JSON fields); corrupt bytes fail. -/
def unmarshalAsPayload : StoredManifest → Option BatchPayload
| StoredManifest.manifest _ => some { tx := none, messages := [], data := [] }
| StoredManifest.legacyPayload p => some p
| StoredManifest.corrupt => none

/-- Modelled from the spec: fftypes.BatchPersisted.GenManifest is not under
src/ (only its callers are). Per the spec, a freshly generated manifest is
version 1 and holds one `(messageId, topicCount)` entry per message and a
separate data `(id, hash)` list, under the batch's own id and tx ref. -/
def GenManifest (b : BatchPersisted) (messages : List Message) (data : List DataItem) : BatchManifest :=
  { version := 1
    id := b.id
    tx := b.tx
    messages := messages.map (fun m => { id := m.header.id, topics := m.header.topics.length })
    data := data.map (fun d => { id := d.id, hash := match d.blob with
      | some br => match br.hash with
        | some h => h
        | none => B32.raw 0
      | none => B32.raw 0 }) }

/-- aggregator.go migrateManifest: unmarshal the persisted column as a full
legacy payload; on parse failure or an empty message list return nil;
otherwise regenerate the manifest from the embedded messages and data. -/
def migrateManifest (b : BatchPersisted) : Option BatchManifest :=
  match unmarshalAsPayload b.manifest with
  | none => none
  | some fullPayload =>
    if fullPayload.messages = [] then none
    else some (GenManifest b fullPayload.messages fullPayload.data)

/-- aggregator.go extractManifest: unmarshal as a manifest; version unset
(0) migrates the legacy batch, version 1 is returned as parsed, any other
version yields nil. -/
def extractManifest (b : BatchPersisted) : Option BatchManifest :=
  match unmarshalAsManifest b.manifest with
  | none => none
  | some manifest =>
    if manifest.version = 0 then migrateManifest b
    else if manifest.version = 1 then some manifest
    else none

/-- definitions.HandlerResult actions. -/
inductive DefAction
| actionConfirm
| actionReject
| actionRetry
| actionWait
deriving DecidableEq, Repr

/-- definitions.HandlerResult: the action plus an optional custom event
correlator set by the definition handler. -/
structure HandlerResult where
  action : DefAction
  customCorrelator : Option UUID
deriving DecidableEq, Repr

/-- fftypes.EventType values emitted by attemptMessageDispatch. -/
inductive EventType
| messageConfirmed
| messageRejected
deriving DecidableEq, Repr

/-- The fields of an fftypes.Event that NewEvent fills deterministically
(the fresh event UUID and created timestamp are omitted). -/
structure Event where
  type : EventType
  ns : String
  reference : UUID
  correlator : Option UUID
  tx : Option UUID
  topic : String
deriving DecidableEq, Repr

/-- The database and collaborator surface the aggregator reads, modelled as
total functions. resolve is identity.FindIdentityForVerifier (namespace,
verifier value); blob is database.GetBlobMatchingHash; transfers is
database.GetTokenTransfers filtered by message id; defHandler is
definitions.HandleDefinitionBroadcast; validateAll is data.ValidateAll;
getBatch is database.GetBatchByID; getMessageData is
data.GetMessageWithDataCached (none models dataAvailable=false); parseB32
is fftypes.Bytes32.UnmarshalText on a hex string; maskedReady abstracts
batchState.CheckMaskedContextReady, whose source is not under src/
(modelled from the spec: ready iff the parsed masked pin matches the
expected next pin for its context and identity). -/
structure AggEnv where
  resolve : String → String → Option Identity
  blob : B32 → Option Blob
  transfers : UUID → List TokenTransfer
  defHandler : Message → List DataItem → Option UUID → HandlerResult
  validateAll : List DataItem → Bool
  getBatch : UUID → Option BatchPersisted
  getMessageData : UUID → Option (Message × List DataItem)
  parseB32 : String → Option B32
  maskedReady : Message → String → Int → B32 → String → Bool

/-- aggregator.go checkOnchainConsistency: the pin signer must equal the
message header key; the key is resolved to a registered org/custom
identity; an unresolvable key passes only for definition messages tagged
as identity claims (or the deprecated define-node/define-organization
tags) or for private messages; a resolved identity must carry exactly the
message author DID. -/
def checkOnchainConsistency (env : AggEnv) (msg : Message) (pin : Pin) : Bool :=
  if msg.header.key = "" ∨ msg.header.key ≠ pin.signer then false
  else
    match env.resolve msg.header.ns pin.signer with
    | none =>
      if msg.header.type = MsgType.definition ∧
          (msg.header.tag = SystemTagIdentityClaim ∨
           msg.header.tag = DeprecatedSystemTagDefineNode ∨
           msg.header.tag = DeprecatedSystemTagDefineOrganization) then
        true
      else if msg.header.type ≠ MsgType.privateMsg then
        false
      else
        true
    | some resolvedAuthor =>
      if msg.header.author = "" ∨ resolvedAuthor.did ≠ msg.header.author then false
      else true

/-- aggregator.go resolveBlobs: every data item carrying a blob hash must
have a matching blob row locally; items without a blob ref are skipped. -/
def resolveBlobs (env : AggEnv) (dataArr : List DataItem) : Bool :=
  dataArr.all (fun d =>
    match d.blob with
    | none => true
    | some br =>
      match br.hash with
      | none => true
      | some h => (env.blob h).isSome)

/-- Result of attemptMessageDispatch: the Go triple (newState, valid, err).
retryErr models the error return on a definition-handler retry action;
noDispatch models ("", false, nil); dispatched carries the new message
state, whether the message joins pendingConfirms, and the events the
registered finalize closure will insert (one per topic). -/
inductive DispatchResult
| retryErr
| noDispatch
| dispatched (newState : MsgState) (pendingConfirm : Bool) (events : List Event)
deriving DecidableEq, Repr

/-- The tail of attemptMessageDispatch once validity is decided: pick
confirmed/rejected state and event type, and queue one event per topic
with the message id as reference and the custom correlator (if set by a
definition handler) or else the message CID. -/
def mkDispatched (msg : Message) (tx : Option UUID) (valid : Bool) (customCorrelator : Option UUID) : DispatchResult :=
  let eventType := if valid then EventType.messageConfirmed else EventType.messageRejected
  let events := msg.header.topics.map (fun topic =>
    { type := eventType
      ns := msg.header.ns
      reference := msg.header.id
      correlator := match customCorrelator with
        | some c => some c
        | none => msg.header.cid
      tx := tx
      topic := topic : Event })
  DispatchResult.dispatched (if valid then MsgState.confirmed else MsgState.rejected) valid events

/-- aggregator.go attemptMessageDispatch: gate on on-chain consistency,
local blob availability, and (for transfer messages) a token transfer row
whose recorded message hash matches; then decide validity via the
definition handler (confirm/reject/retry/wait), group-init (always valid),
or data validation when the message carries data. -/
def attemptMessageDispatch (env : AggEnv) (msg : Message) (dataArr : List DataItem) (tx : Option UUID) (pin : Pin) : DispatchResult :=
  if ¬ checkOnchainConsistency env msg pin then DispatchResult.noDispatch
  else if ¬ resolveBlobs env dataArr then DispatchResult.noDispatch
  else if (msg.header.type = MsgType.transferBroadcast ∨ msg.header.type = MsgType.transferPrivate) ∧
      (match env.transfers msg.header.id with
       | [] => true
       | t :: _ => msg.hash != t.messageHash) = true then
    DispatchResult.noDispatch
  else if msg.header.type = MsgType.definition then
    let hr := env.defHandler msg dataArr tx
    match hr.action with
    | DefAction.actionRetry => DispatchResult.retryErr
    | DefAction.actionWait => DispatchResult.noDispatch
    | a => mkDispatched msg tx (a = DefAction.actionConfirm) hr.customCorrelator
  else if msg.header.type = MsgType.groupInit then
    mkDispatched msg tx true none
  else if 0 < msg.data.length then
    mkDispatched msg tx (env.validateAll dataArr) none
  else
    mkDispatched msg tx true none

/-- Inner loop of extractBatchMessagePin: walks one manifest entry's topic
count, capturing the entry and its base index when the running total hits
the required pin index. -/
def extractInner (e : MessageManifestEntry) (base required : Int) :
    Nat → Int → Option MessageManifestEntry × Int → Int × (Option MessageManifestEntry × Int)
| 0, total, acc => (total, acc)
| Nat.succ n, total, acc =>
  extractInner e base required n (total + 1) (if total = required then (some e, base) else acc)

/-- Outer loop of extractBatchMessagePin over the manifest entries. -/
def extractLoop (required : Int) :
    List MessageManifestEntry → Int → Option MessageManifestEntry × Int → Int × (Option MessageManifestEntry × Int)
| [], total, acc => (total, acc)
| e :: rest, total, acc =>
  let r := extractInner e total required e.topics total acc
  extractLoop required rest r.1 r.2

/-- aggregator.go extractBatchMessagePin: returns the total pin count of
the batch, the manifest entry owning the required index (if any), and that
entry's base index. -/
def extractBatchMessagePin (manifest : BatchManifest) (requiredIndex : Int) :
    Int × Option MessageManifestEntry × Int :=
  let r := extractLoop requiredIndex manifest.messages 0 (none, 0)
  (r.1, r.2.1, r.2.2)

/-- The per-page accumulator (batchState) as far as the aggregator's own
code drives it: the unmasked topic-block map (context to earliest blocking
pin sequence), the events queued by finalize closures, the messages marked
dispatched with their new state and base index, the pending confirms, and
the count of masked next-pin advances. -/
structure BatchState where
  contextBlocks : List (B32 × Int)
  queuedEvents : List Event
  dispatchedMsgs : List (UUID × MsgState × Int)
  pendingConfirms : List UUID
  nextPinIncrements : Nat
deriving DecidableEq, Repr

/-- The batchState with nothing accumulated (newBatchState). -/
def emptyBatchState : BatchState :=
  { contextBlocks := [], queuedEvents := [], dispatchedMsgs := [], pendingConfirms := [], nextPinIncrements := 0 }

/-- Modelled from the spec: batchState.CheckUnmaskedContextReady is not
under src/. Per the spec, an unmasked message is ready iff no prior
message on this context is currently blocked in this batch state. -/
def checkUnmaskedContextReady (st : BatchState) (msgContext : B32) (seq : Int) : Bool :=
  match st.contextBlocks.lookup msgContext with
  | none => true
  | some blockedBy => !(blockedBy < seq)

/-- Modelled from the spec: batchState.SetContextBlockedBy is not under
src/. Per the spec, the topic-block map records the earliest blocking pin
sequence per unmasked context. -/
def setContextBlockedBy (st : BatchState) (msgContext : B32) (seq : Int) : BatchState :=
  match st.contextBlocks.lookup msgContext with
  | none => { st with contextBlocks := (msgContext, seq) :: st.contextBlocks }
  | some _ => { st with contextBlocks := st.contextBlocks.map (fun p =>
      if p.1 = msgContext then (p.1, min p.2 seq) else p) }

/-- The masked-pin loop of processMessage over (pin string, topic) pairs:
split each pin string at the colon (an optional nonce may follow the
hash), hex-decode the hash part, and check masked readiness; a parse
failure or a not-ready pin skips the message (none); success counts the
collected next pins. -/
def checkMaskedPins (env : AggEnv) (msg : Message) (seq : Int) : List (String × String) → Option Nat
| [] => some 0
| (pinStr, topic) :: rest =>
  let pinSplit := pinStr.splitOn ":"
  let hashPart := match pinSplit with
    | [] => ""
    | h :: _ => h
  let nonceStr := match pinSplit with
    | _ :: n :: _ => n
    | _ => ""
  match env.parseB32 hashPart with
  | none => none
  | some msgContext =>
    if env.maskedReady msg topic seq msgContext nonceStr then
      match checkMaskedPins env msg seq rest with
      | none => none
      | some n => some (n + 1)
    else none

/-- The unmasked loop of processMessage: hash each topic to its context
and check readiness against the topic-block map, returning early (none,
with no state change) on the first not-ready topic, else the collected
context list. -/
def checkUnmaskedTopics (st : BatchState) (seq : Int) : List String → Option (List B32)
| [] => some []
| topic :: rest =>
  let msgContext := B32.topicHash topic
  if checkUnmaskedContextReady st msgContext seq then
    match checkUnmaskedTopics st seq rest with
    | none => none
    | some ctxs => some (msgContext :: ctxs)
  else none

/-- The tail of processMessage after the readiness checks: attempt the
dispatch; on success record the dispatched message, queue its events,
advance the masked next pins and (when valid) the pending confirm; on
failure block each unmasked context at this pin's sequence. The returned
list logs the attemptMessageDispatch invocation under the manifest entry
id of the message (the id the page deduplicates on; the store returns the
message with exactly that id). -/
def dispatchPhase (env : AggEnv) (manifest : BatchManifest) (pin : Pin) (entryId : UUID) (msg : Message)
    (dataArr : List DataItem) (unmaskedContexts : List B32) (nextPinCount : Nat)
    (msgBaseIndex : Int) (st : BatchState) : Except Unit (BatchState × List UUID) :=
  match attemptMessageDispatch env msg dataArr manifest.tx pin with
  | DispatchResult.retryErr => Except.error ()
  | DispatchResult.noDispatch =>
    Except.ok (unmaskedContexts.foldl (fun s c => setContextBlockedBy s c pin.sequence) st, [entryId])
  | DispatchResult.dispatched newState pending events =>
    Except.ok ({ st with
      queuedEvents := st.queuedEvents ++ events
      dispatchedMsgs := st.dispatchedMsgs ++ [(msg.header.id, newState, msgBaseIndex)]
      pendingConfirms := if pending then st.pendingConfirms ++ [msg.header.id] else st.pendingConfirms
      nextPinIncrements := st.nextPinIncrements + nextPinCount }, [entryId])

/-- aggregator.go processMessage: load the message with its data (skip if
data unavailable), run the masked or unmasked readiness checks (skipping
on invalid pin data, parse failure, or a not-ready context), then attempt
dispatch and record the outcome. -/
def processMessage (env : AggEnv) (manifest : BatchManifest) (pin : Pin) (msgBaseIndex : Int)
    (msgEntry : MessageManifestEntry) (st : BatchState) : Except Unit (BatchState × List UUID) :=
  match env.getMessageData msgEntry.id with
  | none => Except.ok (st, [])
  | some (msg, dataArr) =>
    if pin.masked then
      if msg.header.group = none ∨ msg.pins = [] ∨ msg.header.topics.length ≠ msg.pins.length then
        Except.ok (st, [])
      else
        match checkMaskedPins env msg pin.sequence (msg.pins.zip msg.header.topics) with
        | none => Except.ok (st, [])
        | some nPins => dispatchPhase env manifest pin msgEntry.id msg dataArr [] nPins msgBaseIndex st
    else
      match checkUnmaskedTopics st pin.sequence msg.header.topics with
      | none => Except.ok (st, [])
      | some ctxs => dispatchPhase env manifest pin msgEntry.id msg dataArr ctxs 0 msgBaseIndex st

/-- aggregator.go GetBatchForPin (the database path; the byte-budgeted
cache layer returns the same values it stored): fetch the batch by id,
verify its hash equals the pin's batch hash, and extract the manifest;
any failure parks the pin (none). -/
def GetBatchForPin (env : AggEnv) (pin : Pin) : Option (BatchPersisted × BatchManifest) :=
  match env.getBatch pin.batch with
  | none => none
  | some batch =>
    if batch.hash ≠ pin.batchHash then none
    else
      match extractManifest batch with
      | none => none
      | some manifest => some (batch, manifest)

/-- The loop state of processPins: the in-loop (batch, manifest) cache
variables, the dupMsgCheck set, the batch state, and the log of message
ids passed to attemptMessageDispatch. -/
structure PinsAcc where
  cache : Option (BatchPersisted × BatchManifest)
  dup : List UUID
  st : BatchState
  log : List UUID

/-- The batch-resolution step at the top of the processPins loop body:
reuse the cached batch when its id matches the pin, else call
GetBatchForPin. -/
def resolveBatchCached (env : AggEnv) (acc : PinsAcc) (pin : Pin) : Option (BatchPersisted × BatchManifest) :=
  match acc.cache with
  | some (b, m) => if b.id = pin.batch then some (b, m) else GetBatchForPin env pin
  | none => GetBatchForPin env pin

/-- One iteration of the processPins loop: resolve the batch (skipping the
pin if unavailable), locate the owning manifest entry (skipping if the pin
index is out of range), deduplicate by message id, and process the
message. -/
def processPinStep (env : AggEnv) (acc : PinsAcc) (pin : Pin) : Except Unit PinsAcc :=
  match resolveBatchCached env acc pin with
  | none => Except.ok { acc with cache := none }
  | some (batch, manifest) =>
    let acc2 := { acc with cache := some (batch, manifest) }
    let r := extractBatchMessagePin manifest pin.index
    match r.2.1 with
    | none => Except.ok acc2
    | some msgEntry =>
      if msgEntry.id ∈ acc2.dup then Except.ok acc2
      else
        let acc3 := { acc2 with dup := acc2.dup ++ [msgEntry.id] }
        match processMessage env manifest pin r.2.2 msgEntry acc3.st with
        | Except.error e => Except.error e
        | Except.ok p => Except.ok { acc3 with st := p.1, log := acc3.log ++ p.2 }

/-- The processPins loop over the page. -/
def processPinsLoop (env : AggEnv) : List Pin → PinsAcc → Except Unit PinsAcc
| [], acc => Except.ok acc
| pin :: rest, acc =>
  match processPinStep env acc pin with
  | Except.error e => Except.error e
  | Except.ok acc2 => processPinsLoop env rest acc2

/-- Result of processPins: panic models the unconditional out-of-bounds
index pins(len(pins)-1) on an empty page; retryErr models a propagated
error; ok carries the final batch state, the attemptMessageDispatch log,
and the pin sequence committed as the poller offset. -/
inductive ProcResult
| panic
| retryErr
| ok (st : BatchState) (log : List UUID) (offset : Int)
deriving DecidableEq, Repr

/-- The fresh loop state at the top of processPins (nil batch cache, empty
dupMsgCheck, fresh batchState). -/
def initialAcc : PinsAcc :=
  { cache := none, dup := [], st := emptyBatchState, log := [] }

/-- aggregator.go processPins: run the loop over the page, then commit the
sequence of the last pin of the page as the poller offset — indexing the
last element unconditionally, which on an empty page is out of bounds. -/
def processPins (env : AggEnv) (pins : List Pin) : ProcResult :=
  match processPinsLoop env pins initialAcc with
  | Except.error _ => ProcResult.retryErr
  | Except.ok acc =>
    match pins.getLast? with
    | none => ProcResult.panic
    | some lastPin => ProcResult.ok acc.st acc.log lastPin.sequence

/-- One step of selecting the minimal-sequence pin. -/
def minSeqFold (best : Option Pin) (p : Pin) : Option Pin :=
  match best with
  | none => some p
  | some q => if p.sequence < q.sequence then some p else some q

/-- The filter of the rewindOffchainBatches pin query. -/
def rewindPinPred (batchIDs : List UUID) (p : Pin) : Bool :=
  decide (p.batch ∈ batchIDs) && !p.dispatched

/-- The pin query in rewindOffchainBatches: pins of the queued batches that
are not yet dispatched, sorted by sequence with limit 1 — the un-dispatched
pin with minimal sequence, if any. db lists the stored pin rows. -/
def earliestUndispatched (db : List Pin) (batchIDs : List UUID) : Option Pin :=
  (db.filter (rewindPinPred batchIDs)).foldl minSeqFold none

/-- aggregator.go rewindOffchainBatches, after draining the queued batch
ids: with no queued ids, or no matching un-dispatched pin, no rewind is
signalled; otherwise rewind to the earliest such pin's sequence minus
one. -/
def rewindOffchainBatches (db : List Pin) (batchIDs : List UUID) : Bool × Int :=
  if batchIDs = [] then (false, 0)
  else
    match earliestUndispatched db batchIDs with
    | none => (false, 0)
    | some p => (true, p.sequence - 1)

/-- The fields of a message row read by rewindForBlobArrival. -/
structure BlobMsg where
  id : UUID
  confirmed : Bool
  batchID : Option UUID
deriving DecidableEq, Repr

/-- The database surface of rewindForBlobArrival: the data records whose
blob hash matches (GetDataRefs), and the messages associated with a data
record (GetMessagesForData; the confirmed-is-nil query filter is applied
in the model at the call site). -/
structure BlobRewindEnv where
  dataRefsForBlob : B32 → List UUID
  messagesForData : UUID → List BlobMsg

/-- aggregator.go rewindForBlobArrival: find the data records referencing
the blob hash; the loop REASSIGNS the messages variable on each data
record (it does not append), so after the loop only the unconfirmed
messages of the last data record remain; their batch ids are collected
into a set and each is queued for rewind. The returned list is that set
(the Go map iteration order is arbitrary; only membership matters). -/
def rewindForBlobArrival (env : BlobRewindEnv) (blobHash : B32) : List UUID :=
  let data := env.dataRefsForBlob blobHash
  let messages := data.foldl
    (fun _ d => (env.messagesForData d).filter (fun m => !m.confirmed)) []
  (messages.filterMap (fun m => m.batchID)).dedup

/-- One observable step of processWithBatchState: transactional group
boundaries (RunAsGroup commits iff its body succeeded), the page callback,
and the finalize and pre-finalize closures identified by registration
index. -/
inductive Act
| beginGroup
| commitGroup
| rollbackGroup
| runCallback
| finalize (i : Nat)
| preFinalize (i : Nat)
deriving DecidableEq, Repr

/-- Modelled from the spec: batchState.RunFinalize and RunPreFinalize are
not under src/. Per the spec they run the registered closures in order;
a closure failure stops the run and propagates the error. The flag list
says whether each registered closure succeeds. -/
def runClosures (mk : Nat → Act) : List Bool → Nat → List Act × Bool
| [], _ => ([], true)
| ok :: rest, i =>
  if ok then
    let r := runClosures mk rest (i + 1)
    (mk i :: r.1, r.2)
  else ([mk i], false)

/-- aggregator.go processWithBatchState, as the trace of group boundaries
and closure runs it produces. The page callback is abstracted by whether
it succeeds and by the pre-finalize and finalize closures it registers in
the batch state (each with a success flag). The first RunAsGroup runs the
callback and, when no pre-finalize closure was registered, the finalize
closures too; otherwise after the first group commits, the pre-finalize
closures run outside any transaction, and the finalize closures run in a
second group. The Bool result is overall success. -/
def processWithBatchState (cbOk : Bool) (preFin fin : List Bool) : List Act × Bool :=
  if ¬ cbOk then ([Act.beginGroup, Act.runCallback, Act.rollbackGroup], false)
  else if preFin.isEmpty then
    let r := runClosures Act.finalize fin 0
    ([Act.beginGroup, Act.runCallback] ++ r.1 ++
      [if r.2 then Act.commitGroup else Act.rollbackGroup], r.2)
  else
    let p := runClosures Act.preFinalize preFin 0
    if ¬ p.2 then
      ([Act.beginGroup, Act.runCallback, Act.commitGroup] ++ p.1, false)
    else
      let r := runClosures Act.finalize fin 0
      ([Act.beginGroup, Act.runCallback, Act.commitGroup] ++ p.1 ++
        [Act.beginGroup] ++ r.1 ++
        [if r.2 then Act.commitGroup else Act.rollbackGroup], r.2)

/-- fftypes.Group as used by the private batch dispatcher (only its hash
is read). -/
structure Group where
  hash : B32
deriving DecidableEq, Repr

/-- The fields of the hydrated fftypes.Batch read by sendData and
transferBlobs: id, namespace, payload tx ref and payload data. -/
structure BatchInflight where
  id : UUID
  ns : String
  tx : Option UUID
  data : List DataItem
deriving DecidableEq, Repr

/-- fftypes.TransportWrapper: optional group plus the in-flight batch. -/
structure TransportWrapper where
  group : Option Group
  batch : BatchInflight
deriving DecidableEq, Repr

/-- One Operation created and run by the private batch dispatcher. A blob
transfer records the operation namespace and tx, the target node id and
blob hash (the operation input), and the peer id and payload ref passed to
TransferBLOB. A batch send records the node id, group hash and batch id
(the operation input), and the peer id and the transport wrapper whose
JSON serialization SendMessage carries (serialization is injective, so the
wrapper value models the payload bytes). -/
inductive SendOp
| transferBlob (ns : String) (tx : Option UUID) (node : UUID) (blobHash : B32) (peer : String) (payloadRef : String)
| sendBatch (ns : String) (tx : Option UUID) (node : UUID) (groupHash : Option B32) (batchId : UUID) (peer : String) (payload : TransportWrapper)
deriving DecidableEq, Repr

/-- The collaborator surface of the private batch dispatcher: the blob
store lookup and identity.GetNodeOwnerOrg (none models a resolution
failure). -/
structure PMEnv where
  blob : B32 → Option Blob
  localOrg : Option Identity

/-- privatemessaging transferBlobs: for each data item carrying a blob, a
missing blob hash or a blob absent from the local store is an error;
otherwise a send-blob Operation is created (AddOrReuseOperation) and run
(TransferBLOB to the node's peer id with the stored payload ref). -/
def transferBlobs (env : PMEnv) (tx : Option UUID) (node : Identity) : List DataItem → Except Unit (List SendOp)
| [] => Except.ok []
| d :: rest =>
  match d.blob with
  | none => transferBlobs env tx node rest
  | some br =>
    match br.hash with
    | none => Except.error ()
    | some h =>
      match env.blob h with
      | none => Except.error ()
      | some blob =>
        match transferBlobs env tx node rest with
        | Except.error e => Except.error e
        | Except.ok ops =>
          Except.ok (SendOp.transferBlob d.ns tx node.id blob.hash node.profileId blob.payloadRef :: ops)

/-- The loop of sendData over the resolved group nodes: a node whose
parent is the local org is skipped entirely; for any other node all blobs
of the batch data are transferred first, then the batch-send Operation is
created and run with the serialized transport wrapper. -/
def sendDataLoop (env : PMEnv) (tw : TransportWrapper) (localOrgId : UUID) : List Identity → Except Unit (List SendOp)
| [] => Except.ok []
| node :: rest =>
  if node.parent = localOrgId then sendDataLoop env tw localOrgId rest
  else
    match transferBlobs env tw.batch.tx node tw.batch.data with
    | Except.error e => Except.error e
    | Except.ok blobOps =>
      let op := SendOp.sendBatch tw.batch.ns tw.batch.tx node.id
        (tw.group.map (fun g => g.hash)) tw.batch.id node.profileId tw
      match sendDataLoop env tw localOrgId rest with
      | Except.error e => Except.error e
      | Except.ok ops => Except.ok (blobOps ++ op :: ops)

/-- privatemessaging sendData: look up the local org, then run the node
loop. -/
def sendData (env : PMEnv) (tw : TransportWrapper) (nodes : List Identity) : Except Unit (List SendOp) :=
  match env.localOrg with
  | none => Except.error ()
  | some localOrg => sendDataLoop env tw localOrg.id nodes

/-- An environment whose database is empty, used to instantiate the model
on concrete inputs. -/
def emptyEnv : AggEnv :=
  { resolve := fun _ _ => none
    blob := fun _ => none
    transfers := fun _ => []
    defHandler := fun _ _ _ => { action := DefAction.actionConfirm, customCorrelator := none }
    validateAll := fun _ => true
    getBatch := fun _ => none
    getMessageData := fun _ => none
    parseB32 := fun _ => none
    maskedReady := fun _ _ _ _ _ => false }

/-- Whether a message carries one of the tags that defer identity
verification to the definition handler. -/
def isIdentityClaimException (h : MsgHeader) : Prop :=
  h.type = MsgType.definition ∧
    (h.tag = SystemTagIdentityClaim ∨
     h.tag = DeprecatedSystemTagDefineNode ∨
     h.tag = DeprecatedSystemTagDefineOrganization)

instance (h : MsgHeader) : Decidable (isIdentityClaimException h) := by
  unfold isIdentityClaimException
  infer_instance

/-- checkOnchainConsistency returns true exactly when the pin signer
equals the (non-empty) message key, and either the key resolves to an
identity carrying exactly the message's (non-empty) author DID, or it
resolves to no identity and the message is an identity-claim definition
or a private message. -/
theorem checkOnchainConsistency_eq_true (env : AggEnv) (msg : Message) (pin : Pin) :
    checkOnchainConsistency env msg pin = true ↔
      (msg.header.key ≠ "" ∧ msg.header.key = pin.signer ∧
        match env.resolve msg.header.ns pin.signer with
        | some resolvedAuthor => msg.header.author ≠ "" ∧ resolvedAuthor.did = msg.header.author
        | none => isIdentityClaimException msg.header ∨ msg.header.type = MsgType.privateMsg) := by
  by_cases hk : msg.header.key = "" ∨ msg.header.key ≠ pin.signer
  · have hfalse : checkOnchainConsistency env msg pin = false := by
      unfold checkOnchainConsistency
      rw [if_pos hk]
    rw [hfalse]
    simp only [Bool.false_eq_true, false_iff]
    rintro ⟨h1, h2, _⟩
    rcases hk with hk | hk
    · exact h1 hk
    · exact hk h2
  · push_neg at hk
    obtain ⟨hk1, hk2⟩ := hk
    unfold checkOnchainConsistency
    rw [if_neg (by push_neg; exact ⟨hk1, hk2⟩)]
    cases hres : env.resolve msg.header.ns pin.signer with
    | none =>
      simp only [isIdentityClaimException]
      split_ifs with h2 h3
      · simp only [true_iff]
        exact ⟨hk1, hk2, Or.inl h2⟩
      · simp only [Bool.false_eq_true, false_iff]
        rintro ⟨-, -, h | h⟩
        · exact h2 h
        · exact h3 h
      · push_neg at h3
        simp only [true_iff]
        exact ⟨hk1, hk2, Or.inr h3⟩
    | some a =>
      dsimp only
      split_ifs with h2
      · simp only [Bool.false_eq_true, false_iff]
        rintro ⟨-, -, h3, h4⟩
        rcases h2 with h2 | h2
        · exact h3 h2
        · exact h2 h4
      · push_neg at h2
        simp only [true_iff]
        exact ⟨hk1, hk2, h2.1, h2.2⟩

/-- A dispatched result of attemptMessageDispatch implies the on-chain
consistency check passed. -/
theorem attemptMessageDispatch_checks (env : AggEnv) (msg : Message) (dataArr : List DataItem)
    (tx : Option UUID) (pin : Pin) (s : MsgState) (p : Bool) (evs : List Event)
    (h : attemptMessageDispatch env msg dataArr tx pin = DispatchResult.dispatched s p evs) :
    checkOnchainConsistency env msg pin = true := by
  cases hc : checkOnchainConsistency env msg pin
  · rw [attemptMessageDispatch] at h
    simp [hc] at h
  · rfl

/-- C9: a private message whose header key matches the pin signer but
whose key resolves to no registered identity passes the on-chain
consistency check, so its author DID is never verified; and when the key
matches the signer but resolves to no identity, a false verdict can only
concern a non-private message that is not an identity-claim definition. -/
theorem c9_private_unresolvable_key (env : AggEnv) (msg : Message) (pin : Pin) :
    (msg.header.type = MsgType.privateMsg → msg.header.key ≠ "" → msg.header.key = pin.signer →
      env.resolve msg.header.ns pin.signer = none →
      checkOnchainConsistency env msg pin = true) ∧
    (msg.header.key ≠ "" → msg.header.key = pin.signer →
      env.resolve msg.header.ns pin.signer = none →
      checkOnchainConsistency env msg pin = false →
      msg.header.type ≠ MsgType.privateMsg ∧ ¬ isIdentityClaimException msg.header) := by
  constructor
  · intro htype hk hks hres
    rw [checkOnchainConsistency_eq_true]
    refine ⟨hk, hks, ?_⟩
    rw [hres]
    exact Or.inr htype
  · intro hk hks hres hfalse
    by_contra hcon
    rw [not_and_or, not_not, not_not] at hcon
    have : checkOnchainConsistency env msg pin = true := by
      rw [checkOnchainConsistency_eq_true]
      refine ⟨hk, hks, ?_⟩
      rw [hres]
      tauto
    rw [this] at hfalse
    exact Bool.noConfusion hfalse

/-- The private message of the C9 witness. -/
def msg9 : Message :=
  { header := { id := 21, key := "0xaaa", author := "did:ff:org/x", ns := "ns1", tag := "",
                type := MsgType.privateMsg, topics := ["t"], group := some (B32.raw 4), cid := none }
    hash := B32.raw 8
    pins := []
    data := [] }

/-- The pin of the C9 witness. -/
def pin9 : Pin :=
  { sequence := 3, batch := 9, batchHash := B32.raw 3, index := 0, hash := B32.raw 11,
    masked := true, signer := "0xaaa", dispatched := false }

theorem c9_private_unresolvable_key_witness :
    msg9.header.type = MsgType.privateMsg ∧ msg9.header.key ≠ "" ∧
      msg9.header.key = pin9.signer ∧ emptyEnv.resolve msg9.header.ns pin9.signer = none ∧
      checkOnchainConsistency emptyEnv msg9 pin9 = true :=
  ⟨by decide, by decide, by decide, rfl,
    (c9_private_unresolvable_key emptyEnv msg9 pin9).1 (by decide) (by decide) (by decide) rfl⟩

/-- The private message of the C2 counterexample: its key matches the pin
signer, resolves to no registered identity, and it is not a definition
message. -/
def msg2c : Message :=
  { header := { id := 22, key := "0xbbb", author := "did:ff:org/y", ns := "ns1", tag := "",
                type := MsgType.privateMsg, topics := ["t2"], group := some (B32.raw 5), cid := none }
    hash := B32.raw 9
    pins := []
    data := [] }

/-- The pin of the C2 counterexample. -/
def pin2c : Pin :=
  { sequence := 4, batch := 9, batchHash := B32.raw 3, index := 0, hash := B32.raw 12,
    masked := true, signer := "0xbbb", dispatched := false }

/-- C2 counterexample: attemptMessageDispatch dispatches a concrete
message although its key resolves to no registered identity (so no DID
equality was established) and it is not an identity-claim definition —
refuting the claim that dispatch happens only under those conditions. -/
theorem c2_counterexample :
    attemptMessageDispatch emptyEnv msg2c [] (some 3) pin2c =
      DispatchResult.dispatched MsgState.confirmed true
        [{ type := EventType.messageConfirmed, ns := "ns1", reference := 22,
           correlator := none, tx := some 3, topic := "t2" }] ∧
    emptyEnv.resolve msg2c.header.ns pin2c.signer = none ∧
    ¬ isIdentityClaimException msg2c.header := by
  refine ⟨by decide, rfl, by decide⟩

/-- C2 amended: a message is dispatched only if the pin signer equals the
non-empty header key and either the key resolves to an identity whose DID
equals the header author, or the key resolves to no identity and the
message is an identity-claim definition (verification deferred) or a
private message; in particular a non-private, non-identity-claim message
with an unresolvable key is never dispatched. -/
theorem c2_dispatch_guard (env : AggEnv) (msg : Message) (dataArr : List DataItem)
    (tx : Option UUID) (pin : Pin) (s : MsgState) (p : Bool) (evs : List Event)
    (h : attemptMessageDispatch env msg dataArr tx pin = DispatchResult.dispatched s p evs) :
    msg.header.key ≠ "" ∧ msg.header.key = pin.signer ∧
      match env.resolve msg.header.ns pin.signer with
      | some resolvedAuthor => msg.header.author ≠ "" ∧ resolvedAuthor.did = msg.header.author
      | none => isIdentityClaimException msg.header ∨ msg.header.type = MsgType.privateMsg :=
  (checkOnchainConsistency_eq_true env msg pin).mp
    (attemptMessageDispatch_checks env msg dataArr tx pin s p evs h)

theorem c2_dispatch_guard_witness :
    attemptMessageDispatch emptyEnv msg9 [] none pin9 =
      DispatchResult.dispatched MsgState.confirmed true
        [{ type := EventType.messageConfirmed, ns := "ns1", reference := 21,
           correlator := none, tx := none, topic := "t" }] ∧
    (msg9.header.key ≠ "" ∧ msg9.header.key = pin9.signer ∧
      match emptyEnv.resolve msg9.header.ns pin9.signer with
      | some resolvedAuthor => msg9.header.author ≠ "" ∧ resolvedAuthor.did = msg9.header.author
      | none => isIdentityClaimException msg9.header ∨ msg9.header.type = MsgType.privateMsg) :=
  ⟨by decide, c2_dispatch_guard emptyEnv msg9 [] none pin9 MsgState.confirmed true
    [{ type := EventType.messageConfirmed, ns := "ns1", reference := 21,
       correlator := none, tx := none, topic := "t" }] (by decide)⟩

/-- minSeqFold never folds down to none from a non-trivial start. -/
theorem minSeqFold_foldl_eq_none (l : List Pin) :
    ∀ acc, l.foldl minSeqFold acc = none ↔ (acc = none ∧ l = []) := by
  induction l with
  | nil => intro acc; simp
  | cons p rest ih =>
    intro acc
    simp only [List.foldl_cons, ih]
    constructor
    · rintro ⟨h1, -⟩
      exfalso
      cases acc with
      | none => simp [minSeqFold] at h1
      | some q =>
        simp only [minSeqFold] at h1
        split_ifs at h1
    · rintro ⟨-, h2⟩
      exact absurd h2 (List.cons_ne_nil p rest)

/-- The pin selected by the minSeqFold fold comes from the list (or was the
starting accumulator). -/
theorem minSeqFold_foldl_mem (l : List Pin) :
    ∀ acc q, l.foldl minSeqFold acc = some q → q ∈ l ∨ acc = some q := by
  induction l with
  | nil => intro acc q h; exact Or.inr h
  | cons p rest ih =>
    intro acc q h
    rcases ih (minSeqFold acc p) q h with h2 | h2
    · exact Or.inl (List.mem_cons_of_mem p h2)
    · cases acc with
      | none =>
        simp only [minSeqFold, Option.some.injEq] at h2
        exact Or.inl (h2 ▸ List.mem_cons_self p rest)
      | some r =>
        simp only [minSeqFold] at h2
        split_ifs at h2
        · simp only [Option.some.injEq] at h2
          exact Or.inl (h2 ▸ List.mem_cons_self p rest)
        · exact Or.inr h2

/-- The pin selected by the minSeqFold fold has the minimal sequence among
the list elements and the starting accumulator. -/
theorem minSeqFold_foldl_le (l : List Pin) :
    ∀ acc q, l.foldl minSeqFold acc = some q →
      (∀ r ∈ l, q.sequence ≤ r.sequence) ∧ (∀ a, acc = some a → q.sequence ≤ a.sequence) := by
  induction l with
  | nil =>
    intro acc q h
    simp only [List.foldl_nil] at h
    refine ⟨by simp, fun a ha => ?_⟩
    rw [h] at ha
    injection ha with ha2
    rw [ha2]
  | cons p rest ih =>
    intro acc q h
    rw [List.foldl_cons] at h
    obtain ⟨h1, h2⟩ := ih (minSeqFold acc p) q h
    have hp : q.sequence ≤ p.sequence := by
      cases acc with
      | none => exact h2 p rfl
      | some r =>
        by_cases hlt : p.sequence < r.sequence
        · exact h2 p (by simp [minSeqFold, hlt])
        · have hqr := h2 r (by simp [minSeqFold, hlt])
          omega
    refine ⟨?_, ?_⟩
    · intro r hr
      rcases List.mem_cons.mp hr with rfl | hr
      · exact hp
      · exact h1 r hr
    · intro a ha
      cases acc with
      | none => cases ha
      | some r =>
        injection ha with ha2
        rw [← ha2]
        by_cases hlt : p.sequence < r.sequence
        · have h3 := h2 p (by simp [minSeqFold, hlt])
          omega
        · exact h2 r (by simp [minSeqFold, hlt])

/-- C5: with at least one queued batch id, if some pin of those batches is
un-dispatched then the poller is told to rewind to the minimal such pin's
sequence minus one; if every pin of those batches is dispatched, no rewind
is signalled. -/
theorem c5_rewind_offset (db : List Pin) (batchIDs : List UUID) (hne : batchIDs ≠ []) :
    ((∃ p ∈ db, p.batch ∈ batchIDs ∧ p.dispatched = false) →
      ∃ q ∈ db, q.batch ∈ batchIDs ∧ q.dispatched = false ∧
        (∀ r ∈ db, r.batch ∈ batchIDs → r.dispatched = false → q.sequence ≤ r.sequence) ∧
        rewindOffchainBatches db batchIDs = (true, q.sequence - 1)) ∧
    ((∀ p ∈ db, p.batch ∈ batchIDs → p.dispatched = true) →
      rewindOffchainBatches db batchIDs = (false, 0)) := by
  constructor
  · rintro ⟨p, hp, hpb, hpd⟩
    have hpF : p ∈ db.filter (rewindPinPred batchIDs) := by
      rw [List.mem_filter]
      exact ⟨hp, by simp [rewindPinPred, hpb, hpd]⟩
    cases hfold : (db.filter (rewindPinPred batchIDs)).foldl minSeqFold none with
    | none =>
      exfalso
      rw [minSeqFold_foldl_eq_none] at hfold
      rw [hfold.2] at hpF
      cases hpF
    | some q =>
      have hqF : q ∈ db.filter (rewindPinPred batchIDs) := by
        rcases minSeqFold_foldl_mem _ none q hfold with h | h
        · exact h
        · cases h
      rw [List.mem_filter] at hqF
      obtain ⟨hqdb, hqpred⟩ := hqF
      simp only [rewindPinPred, Bool.and_eq_true, decide_eq_true_eq, Bool.not_eq_true'] at hqpred
      refine ⟨q, hqdb, hqpred.1, hqpred.2, ?_, ?_⟩
      · intro r hr hrb hrd
        have hrF : r ∈ db.filter (rewindPinPred batchIDs) := by
          rw [List.mem_filter]
          exact ⟨hr, by simp [rewindPinPred, hrb, hrd]⟩
        exact (minSeqFold_foldl_le _ none q hfold).1 r hrF
      · unfold rewindOffchainBatches
        rw [if_neg hne]
        unfold earliestUndispatched
        rw [hfold]
  · intro hall
    have hF : db.filter (rewindPinPred batchIDs) = [] := by
      rw [List.filter_eq_nil_iff]
      intro p hp
      simp only [rewindPinPred, Bool.and_eq_true, decide_eq_true_eq, Bool.not_eq_true',
        not_and]
      intro hpb
      rw [hall p hp hpb]
      simp
    unfold rewindOffchainBatches
    rw [if_neg hne]
    unfold earliestUndispatched
    rw [hF]
    rfl

/-- The pin rows of the C5 witness. -/
def db5 : List Pin :=
  [{ sequence := 1, batch := 4, batchHash := B32.raw 1, index := 0, hash := B32.raw 1,
     masked := false, signer := "s", dispatched := true },
   { sequence := 7, batch := 4, batchHash := B32.raw 1, index := 1, hash := B32.raw 2,
     masked := false, signer := "s", dispatched := false },
   { sequence := 9, batch := 5, batchHash := B32.raw 1, index := 0, hash := B32.raw 3,
     masked := false, signer := "s", dispatched := false }]

theorem c5_rewind_offset_witness :
    ([4] : List UUID) ≠ [] ∧ (∃ p ∈ db5, p.batch ∈ ([4] : List UUID) ∧ p.dispatched = false) ∧
      (∃ q ∈ db5, q.batch ∈ ([4] : List UUID) ∧ q.dispatched = false ∧
        (∀ r ∈ db5, r.batch ∈ ([4] : List UUID) → r.dispatched = false → q.sequence ≤ r.sequence) ∧
        rewindOffchainBatches db5 [4] = (true, q.sequence - 1)) :=
  ⟨by decide, by decide, (c5_rewind_offset db5 [4] (by decide)).1 (by decide)⟩

/-- The blob-arrival environment of the C6 failing input: one blob
referenced by two data records, each attached to a different unconfirmed
message placed in a different batch. -/
def env6 : BlobRewindEnv :=
  { dataRefsForBlob := fun h => if h = B32.raw 99 then [1, 2] else []
    messagesForData := fun d =>
      if d = 1 then [{ id := 10, confirmed := false, batchID := some 5 }]
      else if d = 2 then [{ id := 11, confirmed := false, batchID := some 7 }]
      else [] }

/-- C6: on the failing input, rewindForBlobArrival queues only the batch of
the message attached to the LAST data record referencing the blob. Data
record 1 also references the blob and its unconfirmed message 10 sits in
batch 5, yet batch 5 is not queued — the messages variable is overwritten,
not appended, across the data loop. -/
theorem c6_blob_rewind_misses_batches :
    rewindForBlobArrival env6 (B32.raw 99) = [7] ∧
    (1 : UUID) ∈ env6.dataRefsForBlob (B32.raw 99) ∧
    ({ id := 10, confirmed := false, batchID := some 5 } : BlobMsg) ∈ env6.messagesForData 1 ∧
    (5 : UUID) ∉ rewindForBlobArrival env6 (B32.raw 99) :=
  ⟨by decide, by decide, by decide, by decide⟩

/-- C7: manifest extraction accepts exactly the version-1 form (returned
as parsed) and the version-unset legacy full-payload form (migrated by
regenerating the manifest, canonically equal to a freshly generated
version-1 manifest for the same payload); an empty or unparseable legacy
payload and any other version yield no manifest, and a batch without a
manifest is parked by GetBatchForPin. -/
theorem c7_manifest_extraction (b : BatchPersisted) :
    (∀ m, b.manifest = StoredManifest.manifest m → m.version = 1 → extractManifest b = some m) ∧
    (∀ p, b.manifest = StoredManifest.legacyPayload p → p.messages ≠ [] →
      extractManifest b = some (GenManifest b p.messages p.data) ∧
      (GenManifest b p.messages p.data).version = 1) ∧
    (∀ p, b.manifest = StoredManifest.legacyPayload p → p.messages = [] →
      extractManifest b = none) ∧
    (b.manifest = StoredManifest.corrupt → extractManifest b = none) ∧
    (∀ m, b.manifest = StoredManifest.manifest m → m.version ≠ 0 → m.version ≠ 1 →
      extractManifest b = none) ∧
    (∀ env pin, env.getBatch pin.batch = some b → b.hash = pin.batchHash →
      extractManifest b = none → GetBatchForPin env pin = none) := by
  refine ⟨?_, ?_, ?_, ?_, ?_, ?_⟩
  · intro m hm hv
    simp [extractManifest, unmarshalAsManifest, hm, hv]
  · intro p hp hne
    refine ⟨?_, rfl⟩
    simp [extractManifest, unmarshalAsManifest, hp, migrateManifest, unmarshalAsPayload, hne]
  · intro p hp hempty
    simp [extractManifest, unmarshalAsManifest, hp, migrateManifest, unmarshalAsPayload, hempty]
  · intro hc
    simp [extractManifest, unmarshalAsManifest, hc]
  · intro m hm h0 h1
    simp [extractManifest, unmarshalAsManifest, hm, h0, h1]
  · intro env pin hget hh hnone
    simp [GetBatchForPin, hget, hh, hnone]

/-- The legacy payload of the C7 witness. -/
def payload7 : BatchPayload :=
  { tx := some 50, messages := [msg9], data := [] }

/-- The legacy persisted batch of the C7 witness. -/
def batch7 : BatchPersisted :=
  { id := 40, hash := B32.raw 13, tx := some 50, manifest := StoredManifest.legacyPayload payload7 }

theorem c7_manifest_extraction_witness :
    batch7.manifest = StoredManifest.legacyPayload payload7 ∧ payload7.messages ≠ [] ∧
      extractManifest batch7 = some (GenManifest batch7 payload7.messages payload7.data) :=
  ⟨rfl, by decide, ((c7_manifest_extraction batch7).2.1 payload7 rfl (by decide)).1⟩

/-- runClosures with the pre-finalize constructor emits no finalize act. -/
theorem runClosures_preFinalize_acts (flags : List Bool) :
    ∀ i j, Act.finalize j ∉ (runClosures Act.preFinalize flags i).1 := by
  induction flags with
  | nil => intro i j; simp [runClosures]
  | cons ok rest ih =>
    intro i j
    cases ok with
    | false => simp [runClosures]
    | true =>
      intro hmem
      simp only [runClosures, if_true] at hmem
      rcases List.mem_cons.mp hmem with h | h
      · cases h
      · exact ih (i + 1) j h

/-- C3: with no pre-finalize closure registered the finalize closures run
inside the single transactional group of the page; otherwise that group
commits first, the pre-finalize closures run outside any transaction, and
the finalize closures run inside a second group; and a finalize closure
runs only if every registered pre-finalize closure succeeded. -/
theorem c3_two_phase_commit (preFin fin : List Bool) :
    (preFin = [] →
      processWithBatchState true preFin fin =
        ([Act.beginGroup, Act.runCallback] ++ (runClosures Act.finalize fin 0).1 ++
          [if (runClosures Act.finalize fin 0).2 then Act.commitGroup else Act.rollbackGroup],
         (runClosures Act.finalize fin 0).2)) ∧
    (preFin ≠ [] → (runClosures Act.preFinalize preFin 0).2 = true →
      processWithBatchState true preFin fin =
        ([Act.beginGroup, Act.runCallback, Act.commitGroup] ++
          (runClosures Act.preFinalize preFin 0).1 ++ [Act.beginGroup] ++
          (runClosures Act.finalize fin 0).1 ++
          [if (runClosures Act.finalize fin 0).2 then Act.commitGroup else Act.rollbackGroup],
         (runClosures Act.finalize fin 0).2)) ∧
    (preFin ≠ [] → (runClosures Act.preFinalize preFin 0).2 = false →
      processWithBatchState true preFin fin =
        ([Act.beginGroup, Act.runCallback, Act.commitGroup] ++
          (runClosures Act.preFinalize preFin 0).1, false)) ∧
    (∀ j, Act.finalize j ∈ (processWithBatchState true preFin fin).1 →
      (runClosures Act.preFinalize preFin 0).2 = true) := by
  refine ⟨?_, ?_, ?_, ?_⟩
  · intro h
    subst h
    simp [processWithBatchState]
  · intro hne hpre
    have hn : preFin.isEmpty = false := by
      cases preFin with
      | nil => exact absurd rfl hne
      | cons a l => rfl
    simp [processWithBatchState, hn, hpre]
  · intro hne hpre
    have hn : preFin.isEmpty = false := by
      cases preFin with
      | nil => exact absurd rfl hne
      | cons a l => rfl
    simp [processWithBatchState, hn, hpre]
  · intro j hmem
    by_cases hne : preFin = []
    · subst hne
      rfl
    · cases hpre : (runClosures Act.preFinalize preFin 0).2 with
      | true => rfl
      | false =>
        exfalso
        have hn : preFin.isEmpty = false := by
          cases preFin with
          | nil => exact absurd rfl hne
          | cons a l => rfl
        rw [processWithBatchState] at hmem
        simp only [hn, hpre] at hmem
        exact runClosures_preFinalize_acts preFin 0 j (by simpa using hmem)

theorem c3_two_phase_commit_witness :
    (([true] : List Bool) ≠ [] ∧ (runClosures Act.preFinalize [true] 0).2 = true ∧
      processWithBatchState true [true] [true] =
        ([Act.beginGroup, Act.runCallback, Act.commitGroup] ++
          (runClosures Act.preFinalize [true] 0).1 ++ [Act.beginGroup] ++
          (runClosures Act.finalize [true] 0).1 ++
          [if (runClosures Act.finalize [true] 0).2 then Act.commitGroup else Act.rollbackGroup],
         (runClosures Act.finalize [true] 0).2)) :=
  ⟨by decide, by decide, (c3_two_phase_commit [true] [true]).2.1 (by decide) (by decide)⟩

/-- The blob-transfer operations issued for one node: one per blob-carrying
data item of the batch payload, in payload order. -/
def nodeBlobOps (env : PMEnv) (tx : Option UUID) (node : Identity) (dataArr : List DataItem) : List SendOp :=
  dataArr.filterMap (fun d =>
    match d.blob with
    | none => none
    | some br =>
      match br.hash with
      | none => none
      | some h =>
        match env.blob h with
        | none => none
        | some blob => some (SendOp.transferBlob d.ns tx node.id blob.hash node.profileId blob.payloadRef))

/-- A successful transferBlobs run issues exactly the nodeBlobOps list, and
every blob-carrying data item then has its hash set and its blob in the
local store. -/
theorem transferBlobs_ok (env : PMEnv) (tx : Option UUID) (node : Identity) :
    ∀ (dataArr : List DataItem) (ops : List SendOp),
      transferBlobs env tx node dataArr = Except.ok ops →
      ops = nodeBlobOps env tx node dataArr ∧
      ∀ d ∈ dataArr, ∀ br, d.blob = some br →
        ∃ h b, br.hash = some h ∧ env.blob h = some b := by
  intro dataArr
  induction dataArr with
  | nil =>
    intro ops h
    simp only [transferBlobs, Except.ok.injEq] at h
    constructor
    · rw [← h, nodeBlobOps]
      simp
    · intro d hd
      cases hd
  | cons d rest ih =>
    intro ops h
    cases hblob : d.blob with
    | none =>
      simp only [transferBlobs, hblob] at h
      obtain ⟨h1, h2⟩ := ih ops h
      constructor
      · rw [h1, nodeBlobOps, nodeBlobOps]
        simp [hblob]
      · intro d2 hd2 br hbr
        rcases List.mem_cons.mp hd2 with rfl | hd2
        · rw [hblob] at hbr
          cases hbr
        · exact h2 d2 hd2 br hbr
    | some br =>
      cases hh : br.hash with
      | none =>
        simp only [transferBlobs, hblob, hh] at h
        exact Except.noConfusion h
      | some hsh =>
        cases hb : env.blob hsh with
        | none =>
          simp only [transferBlobs, hblob, hh, hb] at h
          exact Except.noConfusion h
        | some blob =>
          cases hrest : transferBlobs env tx node rest with
          | error e =>
            simp only [transferBlobs, hblob, hh, hb, hrest] at h
            exact Except.noConfusion h
          | ok ops2 =>
            simp only [transferBlobs, hblob, hh, hb, hrest, Except.ok.injEq] at h
            obtain ⟨h1, h2⟩ := ih ops2 hrest
            constructor
            · rw [← h, h1, nodeBlobOps, nodeBlobOps]
              simp [hblob, hh, hb]
            · intro d2 hd2 br2 hbr2
              rcases List.mem_cons.mp hd2 with rfl | hd2
              · rw [hblob] at hbr2
                injection hbr2 with hbr3
                refine ⟨hsh, blob, ?_, hb⟩
                rw [← hbr3]
                exact hh
              · exact h2 d2 hd2 br2 hbr2

/-- A successful sendData node loop issues, for exactly the nodes outside
the local org and in node order, that node's blob transfers followed by
its batch send carrying the transport wrapper. -/
theorem sendDataLoop_ok (env : PMEnv) (tw : TransportWrapper) (localOrgId : UUID) :
    ∀ (nodes : List Identity) (ops : List SendOp),
      sendDataLoop env tw localOrgId nodes = Except.ok ops →
      ops = (nodes.filter (fun n => n.parent != localOrgId)).flatMap (fun node =>
        nodeBlobOps env tw.batch.tx node tw.batch.data ++
          [SendOp.sendBatch tw.batch.ns tw.batch.tx node.id (tw.group.map Group.hash)
            tw.batch.id node.profileId tw]) ∧
      ((∃ n ∈ nodes, n.parent ≠ localOrgId) →
        ∀ d ∈ tw.batch.data, ∀ br, d.blob = some br →
          ∃ h b, br.hash = some h ∧ env.blob h = some b) := by
  intro nodes
  induction nodes with
  | nil =>
    intro ops h
    simp only [sendDataLoop, Except.ok.injEq] at h
    constructor
    · rw [← h]
      simp
    · rintro ⟨n, hn, -⟩
      cases hn
  | cons node rest ih =>
    intro ops h
    by_cases hloc : node.parent = localOrgId
    · simp only [sendDataLoop, if_pos hloc] at h
      obtain ⟨h1, h2⟩ := ih ops h
      constructor
      · rw [h1]
        simp [List.filter_cons, hloc]
      · rintro ⟨n, hn, hnl⟩
        rcases List.mem_cons.mp hn with rfl | hn
        · exact absurd hloc hnl
        · exact h2 ⟨n, hn, hnl⟩
    · cases htb : transferBlobs env tw.batch.tx node tw.batch.data with
      | error e =>
        simp only [sendDataLoop, if_neg hloc, htb] at h
        exact Except.noConfusion h
      | ok blobOps =>
        cases hrest : sendDataLoop env tw localOrgId rest with
        | error e =>
          simp only [sendDataLoop, if_neg hloc, htb, hrest] at h
          exact Except.noConfusion h
        | ok ops2 =>
          simp only [sendDataLoop, if_neg hloc, htb, hrest, Except.ok.injEq] at h
          obtain ⟨hb1, hb2⟩ := transferBlobs_ok env tw.batch.tx node tw.batch.data blobOps htb
          obtain ⟨h1, -⟩ := ih ops2 hrest
          constructor
          · rw [← h, h1, hb1]
            simp [List.filter_cons, hloc]
          · exact fun _ => hb2

/-- C8: when a private batch dispatch succeeds, nodes of the local org are
skipped entirely; every other node receives one blob-transfer Operation
per blob-carrying data item of the batch (all resolvable locally) followed
by its batch-send Operation, whose payload is the serialized transport
wrapper of group and batch. -/
theorem c8_private_dispatch (env : PMEnv) (tw : TransportWrapper) (nodes : List Identity)
    (ops : List SendOp) (h : sendData env tw nodes = Except.ok ops) :
    ∃ localOrg, env.localOrg = some localOrg ∧
      ops = (nodes.filter (fun n => n.parent != localOrg.id)).flatMap (fun node =>
        nodeBlobOps env tw.batch.tx node tw.batch.data ++
          [SendOp.sendBatch tw.batch.ns tw.batch.tx node.id (tw.group.map Group.hash)
            tw.batch.id node.profileId tw]) ∧
      ((∃ n ∈ nodes, n.parent ≠ localOrg.id) →
        ∀ d ∈ tw.batch.data, ∀ br, d.blob = some br →
          ∃ hsh b, br.hash = some hsh ∧ env.blob hsh = some b) := by
  cases hlo : env.localOrg with
  | none =>
    simp only [sendData, hlo] at h
    exact Except.noConfusion h
  | some localOrg =>
    simp only [sendData, hlo] at h
    obtain ⟨h1, h2⟩ := sendDataLoop_ok env tw localOrg.id nodes ops h
    exact ⟨localOrg, rfl, h1, h2⟩

/-- The local org of the C8 witness. -/
def orgL : Identity := { id := 100, did := "did:ff:org/l", parent := 0, profileId := "" }

/-- The environment of the C8 witness: the referenced blob is present. -/
def envW8 : PMEnv :=
  { blob := fun h =>
      if h = B32.raw 31 then some { hash := B32.raw 31, payloadRef := "ref1" } else none
    localOrg := some orgL }

/-- The transport wrapper of the C8 witness. -/
def tw8 : TransportWrapper :=
  { group := some { hash := B32.raw 41 }
    batch := { id := 77, ns := "ns1", tx := some 55,
               data := [{ id := 61, ns := "ns1", blob := some { hash := some (B32.raw 31) } }] } }

/-- The group nodes of the C8 witness: one local, one remote. -/
def nodes8 : List Identity :=
  [{ id := 101, did := "did:ff:node/l", parent := 100, profileId := "peerL" },
   { id := 102, did := "did:ff:node/r", parent := 200, profileId := "peerR" }]

theorem c8_private_dispatch_witness :
    sendData envW8 tw8 nodes8 =
      Except.ok
        [SendOp.transferBlob "ns1" (some 55) 102 (B32.raw 31) "peerR" "ref1",
         SendOp.sendBatch "ns1" (some 55) 102 (some (B32.raw 41)) 77 "peerR" tw8] ∧
    (∃ localOrg, envW8.localOrg = some localOrg ∧
      [SendOp.transferBlob "ns1" (some 55) 102 (B32.raw 31) "peerR" "ref1",
       SendOp.sendBatch "ns1" (some 55) 102 (some (B32.raw 41)) 77 "peerR" tw8] =
        (nodes8.filter (fun n => n.parent != localOrg.id)).flatMap (fun node =>
          nodeBlobOps envW8 tw8.batch.tx node tw8.batch.data ++
            [SendOp.sendBatch tw8.batch.ns tw8.batch.tx node.id (tw8.group.map Group.hash)
              tw8.batch.id node.profileId tw8]) ∧
      ((∃ n ∈ nodes8, n.parent ≠ localOrg.id) →
        ∀ d ∈ tw8.batch.data, ∀ br, d.blob = some br →
          ∃ hsh b, br.hash = some hsh ∧ envW8.blob hsh = some b)) :=
  ⟨rfl, c8_private_dispatch envW8 tw8 nodes8 _ rfl⟩

/-- The total topic count of a manifest message list (the batch's total
pin count). -/
def totalTopics : List MessageManifestEntry → Int
| [] => 0
| e :: rest => (e.topics : Int) + totalTopics rest

theorem totalTopics_nonneg : ∀ l : List MessageManifestEntry, 0 ≤ totalTopics l := by
  intro l
  induction l with
  | nil => simp [totalTopics]
  | cons e rest ih =>
    simp only [totalTopics]
    have h1 : (0 : Int) ≤ (e.topics : Int) := Int.ofNat_nonneg _
    omega

theorem totalTopics_append :
    ∀ a b : List MessageManifestEntry, totalTopics (a ++ b) = totalTopics a + totalTopics b := by
  intro a b
  induction a with
  | nil => simp [totalTopics]
  | cons e rest ih =>
    simp only [List.cons_append, totalTopics]
    rw [List.append_eq, ih]
    ring

/-- Closed form of the inner extractBatchMessagePin loop: it advances the
running total by the topic count and captures (entry, base) exactly when
the required index falls inside the walked range. -/
theorem extractInner_eq (e : MessageManifestEntry) (base req : Int) :
    ∀ (n : Nat) (total : Int) (acc : Option MessageManifestEntry × Int),
      extractInner e base req n total acc =
        (total + n, if total ≤ req ∧ req < total + n then (some e, base) else acc) := by
  intro n
  induction n with
  | zero =>
    intro total acc
    have hc : ¬ (total ≤ req ∧ req < total) := by omega
    simp [extractInner, hc]
  | succ n ih =>
    intro total acc
    rw [extractInner, ih]
    rw [Prod.ext_iff]
    constructor
    · push_cast
      ring
    · simp only
      split_ifs <;> first
        | rfl
        | (exfalso; push_cast at *; omega)

theorem extractLoop_fst (req : Int) :
    ∀ (entries : List MessageManifestEntry) (total : Int) (acc : Option MessageManifestEntry × Int),
      (extractLoop req entries total acc).1 = total + totalTopics entries := by
  intro entries
  induction entries with
  | nil => intro total acc; simp [extractLoop, totalTopics]
  | cons e rest ih =>
    intro total acc
    simp only [extractLoop, extractInner_eq]
    rw [ih]
    simp only [totalTopics]
    ring

theorem extractLoop_miss (req : Int) :
    ∀ (entries : List MessageManifestEntry) (total : Int) (acc : Option MessageManifestEntry × Int),
      (req < total ∨ total + totalTopics entries ≤ req) →
      (extractLoop req entries total acc).2 = acc := by
  intro entries
  induction entries with
  | nil => intro total acc h; rfl
  | cons e rest ih =>
    intro total acc h
    have hnn : 0 ≤ totalTopics rest := totalTopics_nonneg rest
    have hnn2 : (0 : Int) ≤ (e.topics : Int) := Int.ofNat_nonneg _
    simp only [totalTopics] at h
    simp only [extractLoop, extractInner_eq]
    have hc : ¬ (total ≤ req ∧ req < total + (e.topics : Int)) := by omega
    rw [if_neg hc]
    apply ih
    omega

theorem extractLoop_found (req : Int) :
    ∀ (entries : List MessageManifestEntry) (total : Int) (acc : Option MessageManifestEntry × Int),
      total ≤ req → req < total + totalTopics entries →
      ∃ k, ∃ hk : k < entries.length,
        (extractLoop req entries total acc).2 =
          (some (entries.get ⟨k, hk⟩), total + totalTopics (entries.take k)) ∧
        total + totalTopics (entries.take k) ≤ req ∧
        req < total + totalTopics (entries.take k) + ((entries.get ⟨k, hk⟩).topics : Int) := by
  intro entries
  induction entries with
  | nil =>
    intro total acc h1 h2
    exfalso
    simp only [totalTopics] at h2
    omega
  | cons e rest ih =>
    intro total acc h1 h2
    simp only [extractLoop, extractInner_eq]
    by_cases hcase : req < total + (e.topics : Int)
    · rw [if_pos ⟨h1, hcase⟩]
      refine ⟨0, Nat.succ_pos _, ?_, ?_, ?_⟩
      · rw [extractLoop_miss req rest (total + e.topics) _ (Or.inl hcase)]
        simp [totalTopics]
      · simpa [totalTopics] using h1
      · simpa [totalTopics] using hcase
    · push_neg at hcase
      have hc : ¬ (total ≤ req ∧ req < total + (e.topics : Int)) := by omega
      rw [if_neg hc]
      have h2a : req < total + (e.topics : Int) + totalTopics rest := by
        simp only [totalTopics] at h2
        omega
      obtain ⟨k, hk, ha, hb, hc2⟩ := ih (total + e.topics) acc hcase h2a
      refine ⟨k + 1, Nat.succ_lt_succ hk, ?_, ?_, ?_⟩
      · rw [ha]
        simp only [List.take_succ_cons, totalTopics, List.get_cons_succ]
        rw [Prod.ext_iff]
        exact ⟨rfl, by ring⟩
      · simp only [List.take_succ_cons, totalTopics]
        omega
      · simp only [List.take_succ_cons, totalTopics, List.get_cons_succ]
        omega

theorem totalTopics_take_mono (l : List MessageManifestEntry) :
    ∀ m m' : Nat, m ≤ m' → totalTopics (l.take m) ≤ totalTopics (l.take m') := by
  intro m m' h
  have hx := List.take_append_drop m (l.take m')
  have heq : totalTopics (l.take m') =
      totalTopics ((l.take m').take m) + totalTopics ((l.take m').drop m) := by
    rw [← totalTopics_append, hx]
  rw [heq, List.take_take, min_eq_left h]
  have := totalTopics_nonneg ((l.take m').drop m)
  omega

theorem totalTopics_take_succ (l : List MessageManifestEntry) (k : Nat) (hk : k < l.length) :
    totalTopics (l.take (k + 1)) = totalTopics (l.take k) + ((l.get ⟨k, hk⟩).topics : Int) := by
  rw [List.take_succ, totalTopics_append]
  congr 1
  rw [List.getElem?_eq_getElem hk]
  simp [totalTopics, List.get_eq_getElem]

/-- The cumulative ranges of the manifest entries are disjoint: an index
lies in at most one entry's range. -/
theorem entryRange_unique (entries : List MessageManifestEntry) (i : Int) :
    ∀ k k' (hk : k < entries.length) (hk' : k' < entries.length),
      totalTopics (entries.take k) ≤ i →
      i < totalTopics (entries.take k) + ((entries.get ⟨k, hk⟩).topics : Int) →
      totalTopics (entries.take k') ≤ i →
      i < totalTopics (entries.take k') + ((entries.get ⟨k', hk'⟩).topics : Int) →
      k = k' := by
  intro k k' hk hk' h1 h2 h3 h4
  by_contra hne
  rcases Nat.lt_or_ge k k' with hlt | hge
  · have hstep := totalTopics_take_succ entries k hk
    have hmono := totalTopics_take_mono entries (k + 1) k' hlt
    omega
  · have hlt : k' < k := by omega
    have hstep := totalTopics_take_succ entries k' hk'
    have hmono := totalTopics_take_mono entries (k' + 1) k hlt
    omega

/-- C4: extractBatchMessagePin walks the whole manifest (total equals the
sum of topic counts); it resolves no entry exactly when the pin index lies
outside the total range; a resolved entry is the one whose cumulative
range contains the index, with the base index equal to the sum of the
earlier topic counts; that entry is unique; and a pin whose index resolves
no entry is skipped by processPinStep with no state, dedup or log change,
without blocking. -/
theorem c4_pin_index_resolution (manifest : BatchManifest) (i : Int) :
    ((extractBatchMessagePin manifest i).1 = totalTopics manifest.messages) ∧
    ((extractBatchMessagePin manifest i).2.1 = none ↔
      (i < 0 ∨ totalTopics manifest.messages ≤ i)) ∧
    (∀ e b, (extractBatchMessagePin manifest i).2 = (some e, b) →
      ∃ k, ∃ hk : k < manifest.messages.length,
        manifest.messages.get ⟨k, hk⟩ = e ∧
        b = totalTopics (manifest.messages.take k) ∧
        b ≤ i ∧ i < b + (e.topics : Int)) ∧
    (∀ k k' (hk : k < manifest.messages.length) (hk' : k' < manifest.messages.length),
      totalTopics (manifest.messages.take k) ≤ i →
      i < totalTopics (manifest.messages.take k) +
        ((manifest.messages.get ⟨k, hk⟩).topics : Int) →
      totalTopics (manifest.messages.take k') ≤ i →
      i < totalTopics (manifest.messages.take k') +
        ((manifest.messages.get ⟨k', hk'⟩).topics : Int) →
      k = k') ∧
    (∀ env acc pin batch m, resolveBatchCached env acc pin = some (batch, m) →
      (extractBatchMessagePin m pin.index).2.1 = none →
      processPinStep env acc pin = Except.ok { acc with cache := some (batch, m) }) := by
  refine ⟨?_, ?_, ?_, ?_, ?_⟩
  · simp only [extractBatchMessagePin, extractLoop_fst]
    omega
  · constructor
    · intro hnone
      by_contra hcon
      push_neg at hcon
      obtain ⟨k, hk, ha, -, -⟩ :=
        extractLoop_found i manifest.messages 0 (none, 0) (by omega) (by omega)
      simp only [extractBatchMessagePin] at hnone
      rw [ha] at hnone
      cases hnone
    · intro h
      simp only [extractBatchMessagePin]
      rw [extractLoop_miss i manifest.messages 0 (none, 0) (by omega)]
  · intro e b hsome
    have hin : ¬ (i < 0 ∨ totalTopics manifest.messages ≤ i) := by
      intro hout
      simp only [extractBatchMessagePin] at hsome
      rw [extractLoop_miss i manifest.messages 0 (none, 0) (by omega)] at hsome
      cases hsome
    push_neg at hin
    obtain ⟨k, hk, ha, hb, hc2⟩ :=
      extractLoop_found i manifest.messages 0 (none, 0) (by omega) (by omega)
    simp only [extractBatchMessagePin] at hsome
    rw [ha] at hsome
    injection hsome with hs1 hs2
    injection hs1 with hs1
    refine ⟨k, hk, hs1, by omega, by omega, ?_⟩
    rw [← hs1]
    omega
  · exact entryRange_unique manifest.messages i
  · intro env acc pin batch m hres hnone
    simp only [processPinStep, hres]
    rw [hnone]

/-- The manifest of the C4 witness: two messages with topic counts 2 and
1; pin index 2 falls in the second message's range. -/
def manifest4 : BatchManifest :=
  { version := 1, id := 1, tx := none,
    messages := [{ id := 1, topics := 2 }, { id := 2, topics := 1 }], data := [] }

theorem c4_pin_index_resolution_witness :
    (extractBatchMessagePin manifest4 2).2 = (some { id := 2, topics := 1 }, 2) ∧
      (∃ k, ∃ hk : k < manifest4.messages.length,
        manifest4.messages.get ⟨k, hk⟩ = { id := 2, topics := 1 } ∧
        (2 : Int) = totalTopics (manifest4.messages.take k) ∧
        (2 : Int) ≤ 2 ∧ (2 : Int) < 2 + (({ id := 2, topics := 1 } : MessageManifestEntry).topics : Int)) :=
  ⟨by decide, (c4_pin_index_resolution manifest4 2).2.2.1 { id := 2, topics := 1 } 2 (by decide)⟩

/-- C10: processPins panics on an empty page (the offset commit indexes
the last element of the pin slice unconditionally), and whenever it
returns without error — even if every pin of the page was skipped — the
committed offset is the sequence of the last pin of the page. -/
theorem c10_offset_commit :
    (∀ env : AggEnv, processPins env [] = ProcResult.panic) ∧
    (∀ (env : AggEnv) (pins : List Pin) (st : BatchState) (log : List UUID) (off : Int),
      processPins env pins = ProcResult.ok st log off →
      ∃ lastPin, pins.getLast? = some lastPin ∧ off = lastPin.sequence) := by
  constructor
  · intro env
    rfl
  · intro env pins st log off h
    unfold processPins at h
    cases hloop : processPinsLoop env pins initialAcc with
    | error e =>
      simp only [hloop] at h
      exact ProcResult.noConfusion h
    | ok acc =>
      simp only [hloop] at h
      cases hlast : pins.getLast? with
      | none =>
        simp only [hlast] at h
        exact ProcResult.noConfusion h
      | some lastPin =>
        simp only [hlast] at h
        injection h with h1 h2 h3
        exact ⟨lastPin, rfl, h3.symm⟩

/-- The pin of the C10 witness: its batch is absent from the store, so the
whole page is skipped, yet the offset commits to its sequence. -/
def pinW : Pin :=
  { sequence := 5, batch := 9, batchHash := B32.raw 3, index := 0, hash := B32.raw 1,
    masked := false, signer := "s", dispatched := false }

theorem c10_offset_commit_witness :
    processPins emptyEnv [pinW] = ProcResult.ok emptyBatchState [] 5 ∧
      (∃ lastPin, ([pinW].getLast?) = some lastPin ∧ (5 : Int) = lastPin.sequence) :=
  ⟨by decide, c10_offset_commit.2 emptyEnv [pinW] emptyBatchState [] 5 (by decide)⟩

/-- Each processMessage call contributes at most one dispatch-log entry,
tagged with the manifest entry id it was called for. -/
theorem processMessage_log (env : AggEnv) (manifest : BatchManifest) (pin : Pin)
    (msgBaseIndex : Int) (msgEntry : MessageManifestEntry) (st : BatchState) :
    ∀ st2 lg, processMessage env manifest pin msgBaseIndex msgEntry st = Except.ok (st2, lg) →
      lg = [] ∨ lg = [msgEntry.id] := by
  have hdp : ∀ (entryId : UUID) (msg : Message) (dataArr : List DataItem)
      (ctxs : List B32) (n : Nat) (b : Int) (st0 : BatchState) (st2 : BatchState) (lg : List UUID),
      dispatchPhase env manifest pin entryId msg dataArr ctxs n b st0 = Except.ok (st2, lg) →
      lg = [entryId] := by
    intro entryId msg dataArr ctxs n b st0 st2 lg h
    unfold dispatchPhase at h
    cases hd : attemptMessageDispatch env msg dataArr manifest.tx pin with
    | retryErr =>
      rw [hd] at h
      exact Except.noConfusion h
    | noDispatch =>
      rw [hd] at h
      simp only [Except.ok.injEq, Prod.mk.injEq] at h
      exact h.2.symm
    | dispatched s2 p2 evs =>
      rw [hd] at h
      simp only [Except.ok.injEq, Prod.mk.injEq] at h
      exact h.2.symm
  intro st2 lg h
  unfold processMessage at h
  cases hg : env.getMessageData msgEntry.id with
  | none =>
    simp only [hg] at h
    simp only [Except.ok.injEq, Prod.mk.injEq] at h
    exact Or.inl h.2.symm
  | some pr =>
    obtain ⟨msg, dataArr⟩ := pr
    simp only [hg] at h
    by_cases hm : pin.masked = true
    · rw [if_pos hm] at h
      by_cases hguard : msg.header.group = none ∨ msg.pins = [] ∨
          msg.header.topics.length ≠ msg.pins.length
      · rw [if_pos hguard] at h
        simp only [Except.ok.injEq, Prod.mk.injEq] at h
        exact Or.inl h.2.symm
      · rw [if_neg hguard] at h
        cases hc : checkMaskedPins env msg pin.sequence (msg.pins.zip msg.header.topics) with
        | none =>
          simp only [hc] at h
          simp only [Except.ok.injEq, Prod.mk.injEq] at h
          exact Or.inl h.2.symm
        | some nPins =>
          simp only [hc] at h
          exact Or.inr (hdp msgEntry.id msg dataArr [] nPins msgBaseIndex st st2 lg h)
    · rw [if_neg hm] at h
      cases hc : checkUnmaskedTopics st pin.sequence msg.header.topics with
      | none =>
        simp only [hc] at h
        simp only [Except.ok.injEq, Prod.mk.injEq] at h
        exact Or.inl h.2.symm
      | some ctxs =>
        simp only [hc] at h
        exact Or.inr (hdp msgEntry.id msg dataArr ctxs 0 msgBaseIndex st st2 lg h)

/-- One processPins loop step preserves: the dispatch log is
duplicate-free and contained in the dedup set. -/
theorem processPinStep_inv (env : AggEnv) (acc : PinsAcc) (pin : Pin) (acc2 : PinsAcc)
    (hstep : processPinStep env acc pin = Except.ok acc2)
    (h1 : acc.log.Nodup) (h2 : ∀ x ∈ acc.log, x ∈ acc.dup) :
    acc2.log.Nodup ∧ ∀ x ∈ acc2.log, x ∈ acc2.dup := by
  unfold processPinStep at hstep
  cases hres : resolveBatchCached env acc pin with
  | none =>
    simp only [hres] at hstep
    injection hstep with hs
    rw [← hs]
    exact ⟨h1, h2⟩
  | some bm =>
    obtain ⟨batch, manifest⟩ := bm
    simp only [hres] at hstep
    cases hext : (extractBatchMessagePin manifest pin.index).2.1 with
    | none =>
      simp only [hext] at hstep
      injection hstep with hs
      rw [← hs]
      exact ⟨h1, h2⟩
    | some msgEntry =>
      simp only [hext] at hstep
      by_cases hdup : msgEntry.id ∈ acc.dup
      · rw [if_pos hdup] at hstep
        injection hstep with hs
        rw [← hs]
        exact ⟨h1, h2⟩
      · rw [if_neg hdup] at hstep
        cases hpm : processMessage env manifest pin
            (extractBatchMessagePin manifest pin.index).2.2 msgEntry acc.st with
        | error e =>
          simp only [hpm] at hstep
          exact Except.noConfusion hstep
        | ok p =>
          obtain ⟨st2, lg⟩ := p
          simp only [hpm] at hstep
          injection hstep with hs
          rw [← hs]
          have hlg := processMessage_log env manifest pin
            (extractBatchMessagePin manifest pin.index).2.2 msgEntry acc.st st2 lg hpm
          constructor
          · rcases hlg with rfl | rfl
            · simpa using h1
            · rw [List.nodup_append]
              refine ⟨h1, List.nodup_singleton _, ?_⟩
              intro x hx hx2
              rw [List.mem_singleton] at hx2
              exact hdup (hx2 ▸ h2 x hx)
          · intro x hx
            rcases List.mem_append.mp hx with hx | hx
            · exact List.mem_append_left _ (h2 x hx)
            · rcases hlg with rfl | rfl
              · cases hx
              · rw [List.mem_singleton] at hx
                exact List.mem_append_right _ (by rw [hx]; exact List.mem_singleton_self _)

/-- The loop preserves the invariant along the whole page. -/
theorem processPinsLoop_inv (env : AggEnv) :
    ∀ (pins : List Pin) (acc accF : PinsAcc),
      processPinsLoop env pins acc = Except.ok accF →
      acc.log.Nodup → (∀ x ∈ acc.log, x ∈ acc.dup) →
      accF.log.Nodup := by
  intro pins
  induction pins with
  | nil =>
    intro acc accF h h1 h2
    injection h with h3
    rw [← h3]
    exact h1
  | cons pin rest ih =>
    intro acc accF h h1 h2
    cases hstep : processPinStep env acc pin with
    | error e =>
      simp only [processPinsLoop, hstep] at h
      exact Except.noConfusion h
    | ok acc2 =>
      simp only [processPinsLoop, hstep] at h
      obtain ⟨g1, g2⟩ := processPinStep_inv env acc pin acc2 hstep h1 h2
      exact ih acc2 accF h g1 g2

/-- The event list of a successful mkDispatched: exactly one event per
topic of the message, confirmed or rejected, with the message id as
reference. -/
theorem mkDispatched_events (msg : Message) (tx : Option UUID) (v : Bool) (cc : Option UUID)
    (s : MsgState) (p : Bool) (evs : List Event)
    (h : mkDispatched msg tx v cc = DispatchResult.dispatched s p evs) :
    ∃ et correlator, (et = EventType.messageConfirmed ∨ et = EventType.messageRejected) ∧
      evs = msg.header.topics.map (fun topic =>
        { type := et, ns := msg.header.ns, reference := msg.header.id,
          correlator := correlator, tx := tx, topic := topic }) := by
  cases cc with
  | some c =>
    unfold mkDispatched at h
    injection h with h1 h2 h3
    refine ⟨if v then EventType.messageConfirmed else EventType.messageRejected, some c, ?_, h3.symm⟩
    cases v
    · exact Or.inr rfl
    · exact Or.inl rfl
  | none =>
    unfold mkDispatched at h
    injection h with h1 h2 h3
    refine ⟨if v then EventType.messageConfirmed else EventType.messageRejected, msg.header.cid, ?_, h3.symm⟩
    cases v
    · exact Or.inr rfl
    · exact Or.inl rfl

/-- C1: within a page the dispatch log never repeats a message id —
attemptMessageDispatch runs at most once per message even when several
pins of the page belong to it — and every successful dispatch queues
exactly one message_confirmed or message_rejected event per topic of the
message, with the message id as reference. -/
theorem c1_dedup_and_events :
    (∀ (env : AggEnv) (pins : List Pin) (st : BatchState) (log : List UUID) (off : Int),
      processPins env pins = ProcResult.ok st log off → log.Nodup) ∧
    (∀ (env : AggEnv) (msg : Message) (dataArr : List DataItem) (tx : Option UUID) (pin : Pin)
      (s : MsgState) (p : Bool) (evs : List Event),
      attemptMessageDispatch env msg dataArr tx pin = DispatchResult.dispatched s p evs →
      ∃ et correlator, (et = EventType.messageConfirmed ∨ et = EventType.messageRejected) ∧
        evs = msg.header.topics.map (fun topic =>
          { type := et, ns := msg.header.ns, reference := msg.header.id,
            correlator := correlator, tx := tx, topic := topic })) := by
  constructor
  · intro env pins st log off h
    unfold processPins at h
    cases hloop : processPinsLoop env pins initialAcc with
    | error e =>
      simp only [hloop] at h
      exact ProcResult.noConfusion h
    | ok acc =>
      simp only [hloop] at h
      cases hlast : pins.getLast? with
      | none =>
        simp only [hlast] at h
        exact ProcResult.noConfusion h
      | some lastPin =>
        simp only [hlast] at h
        injection h with h1 h2 h3
        rw [← h2]
        exact processPinsLoop_inv env pins initialAcc acc hloop
          (List.nodup_nil) (by intro x hx; cases hx)
  · intro env msg dataArr tx pin s p evs h
    unfold attemptMessageDispatch at h
    split_ifs at h with h1 h2 h3 h4 h5 h6
    · cases hact : (env.defHandler msg dataArr tx).action with
      | actionRetry =>
        simp only [hact] at h
        exact DispatchResult.noConfusion h
      | actionWait =>
        simp only [hact] at h
        exact DispatchResult.noConfusion h
      | actionConfirm =>
        simp only [hact] at h
        exact mkDispatched_events msg tx _ _ s p evs h
      | actionReject =>
        simp only [hact] at h
        exact mkDispatched_events msg tx _ _ s p evs h
    · exact mkDispatched_events msg tx _ _ s p evs h
    · exact mkDispatched_events msg tx _ _ s p evs h
    · exact mkDispatched_events msg tx _ _ s p evs h

/-- The two-topic broadcast message of the C1 witness (spec scenario 6:
two pins of one page belong to it). -/
def msg6 : Message :=
  { header := { id := 6, key := "k", author := "a", ns := "ns1", tag := "",
                type := MsgType.broadcast, topics := ["t1", "t2"], group := none, cid := none }
    hash := B32.raw 1
    pins := []
    data := [] }

/-- The persisted batch of the C1 witness, carrying a version-1 manifest
with one two-topic message entry. -/
def batch9 : BatchPersisted :=
  { id := 9, hash := B32.raw 3, tx := some 77,
    manifest := StoredManifest.manifest
      { version := 1, id := 9, tx := some 77, messages := [{ id := 6, topics := 2 }], data := [] } }

/-- The environment of the C1 witness: the batch and message resolve, and
the signing key resolves to the author identity. -/
def envC1 : AggEnv :=
  { emptyEnv with
    getBatch := fun b => if b = 9 then some batch9 else none
    getMessageData := fun m => if m = 6 then some (msg6, []) else none
    resolve := fun _ v =>
      if v = "k" then some { id := 1, did := "a", parent := 0, profileId := "" } else none }

/-- First pin of the C1 witness page (topic index 0). -/
def pin61 : Pin :=
  { sequence := 1, batch := 9, batchHash := B32.raw 3, index := 0, hash := B32.topicHash "t1",
    masked := false, signer := "k", dispatched := false }

/-- Second pin of the C1 witness page (topic index 1, same message). -/
def pin62 : Pin :=
  { sequence := 2, batch := 9, batchHash := B32.raw 3, index := 1, hash := B32.topicHash "t2",
    masked := false, signer := "k", dispatched := false }

/-- The batch state after the C1 witness page: one dispatch, two queued
events (one per topic), offset committed to the larger sequence. -/
def stC1 : BatchState :=
  { contextBlocks := []
    queuedEvents :=
      [{ type := EventType.messageConfirmed, ns := "ns1", reference := 6,
         correlator := none, tx := some 77, topic := "t1" },
       { type := EventType.messageConfirmed, ns := "ns1", reference := 6,
         correlator := none, tx := some 77, topic := "t2" }]
    dispatchedMsgs := [(6, MsgState.confirmed, 0)]
    pendingConfirms := [6]
    nextPinIncrements := 0 }

theorem c1_dedup_and_events_witness :
    processPins envC1 [pin61, pin62] = ProcResult.ok stC1 [6] 2 ∧
      ([6] : List UUID).Nodup ∧
      (∃ et correlator, (et = EventType.messageConfirmed ∨ et = EventType.messageRejected) ∧
        stC1.queuedEvents = msg6.header.topics.map (fun topic =>
          { type := et, ns := msg6.header.ns, reference := msg6.header.id,
            correlator := correlator, tx := some 77, topic := topic })) :=
  ⟨by decide,
   c1_dedup_and_events.1 envC1 [pin61, pin62] stC1 [6] 2 (by decide),
   c1_dedup_and_events.2 envC1 msg6 [] (some 77) pin61 MsgState.confirmed true
     stC1.queuedEvents (by decide)⟩
